import Mathlib

/-!
Verification of the orchestration layer of a small Flask media-download
service (src/app.py) against its natural-language specification.

Strings of the Python program are modelled as `List Char` (Python `str` is a
sequence of code points); the shared output directory is modelled as the list
of filenames it contains; the external extraction collaborator (yt-dlp) is an
opaque function supplied as a parameter; an exception raised by the
collaborator is an explicit `exn` outcome.  All definitions are translated
from src/app.py except those whose doc comment says otherwise.
-/

/-! ### URL validator (src/app.py lines 23-34) -/

/-- Tail of Python regex matching for `.*$`-style remainders: succeeds iff
every character except possibly the final one is not a newline — equivalently,
the list is a newline-free block followed by nothing or by one final newline
(Python `$` also matches just before a trailing newline, and `.` never matches
a newline). -/
def noNewlineTail : List Char → Bool
  | [] => true
  | [_] => true
  | c :: cs => decide (c ≠ '\n') && noNewlineTail cs

/-- Matching of the regex fragment `.+$` against a whole remainder, with
Python `re` semantics: at least one non-newline character, then the end of the
string or a single final newline. -/
def dotPlusDollar : List Char → Bool
  | [] => false
  | c :: cs => decide (c ≠ '\n') && noNewlineTail cs

/-- Matching of `(youtube\.com|youtu\.be)/.+$` against the remainder after the
optional scheme and `www.` prefixes. -/
def hostTail (s : List Char) : Bool :=
  if ("youtube.com/".toList).isPrefixOf s then dotPlusDollar (s.drop 12)
  else if ("youtu.be/".toList).isPrefixOf s then dotPlusDollar (s.drop 9)
  else false

/-- Matching of `(www\.)?(youtube\.com|youtu\.be)/.+$` against the remainder
after the optional scheme. -/
def afterScheme (s : List Char) : Bool :=
  if ("www.".toList).isPrefixOf s then hostTail (s.drop 4) else hostTail s

/-- Matching of the whole regex
`^(https?://)?(www\.)?(youtube\.com|youtu\.be)/.+$` with Python `re.match`
semantics, over the code-point list of the URL. -/
def matchYoutubeChars (s : List Char) : Bool :=
  if ("https://".toList).isPrefixOf s then afterScheme (s.drop 8)
  else if ("http://".toList).isPrefixOf s then afterScheme (s.drop 7)
  else afterScheme s

/-- Embedding of `validate_youtube_url` (src/app.py lines 23-34):
`re.match(r'^(https?://)?(www\.)?(youtube\.com|youtu\.be)/.+$', url) is not
None`. -/
def validate_youtube_url (url : String) : Bool :=
  matchYoutubeChars url.data

/-- The specification's own characterisation of the accepted language, written
from the regex `^(https?://)?(www\.)?(youtube\.com|youtu\.be)/.+$` as the spec
states it: an optional scheme, an optional `www.`, one of the two literal
domains, a slash, and a non-empty newline-free rest, with the Python
end-anchor tolerating one final newline. -/
def YoutubeRegexSpec (s : List Char) : Prop :=
  ∃ p w d r t,
    s = p ++ (w ++ (d ++ ('/' :: (r ++ t)))) ∧
    (p = [] ∨ p = "http://".toList ∨ p = "https://".toList) ∧
    (w = [] ∨ w = "www.".toList) ∧
    (d = "youtube.com".toList ∨ d = "youtu.be".toList) ∧
    r ≠ [] ∧ '\n' ∉ r ∧ (t = [] ∨ t = ['\n'])

/-! ### Filename sanitizer (src/app.py lines 37-50) -/

/-- The characters `re.sub(r'[<>:"/\\|?*]', '', filename)` removes. -/
def invalidFileChar (c : Char) : Bool :=
  c = '<' || c = '>' || c = ':' || c = '"' || c = '/' || c = '\\' || c = '|' || c = '?' || c = '*'

/-- Core of `sanitize_filename`: remove every invalid character, then keep the
first 200 characters (`filename[:200]`). -/
def sanitizeChars (l : List Char) : List Char :=
  (l.filter (fun c => !invalidFileChar c)).take 200

/-- Embedding of `sanitize_filename` (src/app.py lines 37-50). -/
def sanitize_filename (s : String) : String :=
  String.mk (sanitizeChars s.data)

/-- Character removal as the specification words it ("first removing every
occurrence of those characters"), written as plain recursion to compare with
the code's `re.sub`-then-slice composition. -/
def removeInvalid : List Char → List Char
  | [] => []
  | c :: cs => if invalidFileChar c then removeInvalid cs else c :: removeInvalid cs

/-! ### Python helpers shared by both handlers -/

/-- Python `str.strip()` whitespace set (the ASCII whitespace characters). -/
def pyWhitespace (c : Char) : Bool :=
  c = ' ' || c = '\t' || c = '\n' || c = '\r' || c = '\x0b' || c = '\x0c'

/-- Python `str.strip()`: drop leading and trailing whitespace. -/
def pyStrip (l : List Char) : List Char :=
  ((l.dropWhile pyWhitespace).reverse.dropWhile pyWhitespace).reverse

/-- Truthiness of Python `f.get(key)` for a string value: `None` and the empty
string are falsy. -/
def pyTruthyStr : Option (List Char) → Bool
  | none => false
  | some s => !s.isEmpty

/-- Truthiness of Python `f.get(key)` for an integer value: `None` and `0` are
falsy. -/
def pyTruthyNat : Option Nat → Bool
  | none => false
  | some n => n != 0

/-! ### Metadata format processing (src/app.py lines 116-156) -/

/-- One raw entry of `info.get('formats', [])` as the code reads it: each
field is the result of `f.get(...)`, absent keys being `none`. -/
structure RawFormat where
  url : Option (List Char)
  ext : Option (List Char)
  filesize : Option Nat
  filesize_approx : Option Nat
  vcodec : Option (List Char)
  acodec : Option (List Char)
  height : Option Nat
  format_id : Option (List Char)

/-- One entry of the `formats` list the handler sends to the client. -/
structure FormatDescriptor where
  format_id : Option (List Char)
  quality : List Char
  ext : List Char
  filesize : Nat
  filesize_mb : ℚ
  has_audio : Bool
  height : Option Nat

/-- `f.get('filesize') or f.get('filesize_approx')` followed by the `if not
filesize: continue` guard: the exact size when truthy, else the approximate
size when truthy, else nothing. -/
def usedSize (f : RawFormat) : Option Nat :=
  let s := if pyTruthyNat f.filesize then f.filesize else f.filesize_approx
  if pyTruthyNat s then s else none

/-- Decimal digits of a natural number, for the `f"{height}p"` quality label. -/
def natChars (n : Nat) : List Char :=
  (Nat.repr n).data

/-- Python `round(x, 2)` on the exact rational value: round to two decimal
places (both the code and the spec use the same `round(size/1048576, 2)`
expression, so one embedding serves both sides). -/
def pyRound2 (x : ℚ) : ℚ :=
  ((round (x * 100) : ℤ) : ℚ) / 100

/-- `round(filesize / (1024 * 1024), 2)`. -/
def filesizeMB (n : Nat) : ℚ :=
  pyRound2 ((n : ℚ) / (1024 * 1024))

/-- The per-entry body of the `for f in info.get('formats', [])` loop
(src/app.py lines 117-154): `none` when the entry is skipped by a `continue`
or matches neither classification rule, otherwise the descriptor appended to
`formats`. -/
def keepRaw (f : RawFormat) : Option FormatDescriptor :=
  if !pyTruthyStr f.url then none
  else
    let ext := f.ext.getD ("mp4".toList)
    if !(ext == "mp4".toList || ext == "webm".toList) then none
    else
      match usedSize f with
      | none => none
      | some filesize =>
        let vcodec := f.vcodec.getD ("none".toList)
        let acodec := f.acodec.getD ("none".toList)
        if vcodec != "none".toList && pyTruthyNat f.height && decide (144 ≤ f.height.getD 0) then
          some { format_id := f.format_id
                 quality := natChars (f.height.getD 0) ++ ['p']
                 ext := ext
                 filesize := filesize
                 filesize_mb := filesizeMB filesize
                 has_audio := acodec != "none".toList
                 height := f.height }
        else if vcodec == "none".toList && acodec != "none".toList then
          some { format_id := f.format_id
                 quality := "audio".toList
                 ext := ext
                 filesize := filesize
                 filesize_mb := filesizeMB filesize
                 has_audio := true
                 height := none }
        else none

/-- The sort key `x['height'] or 0` of the final `formats.sort(...)`. -/
def heightKey (d : FormatDescriptor) : Nat :=
  match d.height with
  | none => 0
  | some h => h

/-- Comparison used to model `formats.sort(key=..., reverse=True)`: a stable
sort that puts larger height keys first. -/
def formatsSortLE (a b : FormatDescriptor) : Bool :=
  decide (heightKey b ≤ heightKey a)

/-- Whether a descriptor is a video entry (audio-only entries carry
`height = null`). -/
def isVideoDesc (d : FormatDescriptor) : Bool :=
  d.height.isSome

/-- The whole format post-processing of `get_video_info` (src/app.py lines
116-156): filter and classify every raw entry, then sort descending by
height. `List.mergeSort` is a stable sort, like Python's `list.sort`. -/
def processFormats (raw : List RawFormat) : List FormatDescriptor :=
  (raw.filterMap keepRaw).mergeSort formatsSortLE

/-- The specification's resolved size: "a non-zero exact or approximate
filesize", the exact size preferred. -/
def specResolvedSize (f : RawFormat) : Option Nat :=
  match f.filesize with
  | some n =>
    if n ≠ 0 then some n
    else
      match f.filesize_approx with
      | some m => if m ≠ 0 then some m else none
      | none => none
  | none =>
    match f.filesize_approx with
    | some m => if m ≠ 0 then some m else none
    | none => none

/-- The specification's classification rule, written from the spec's words:
keep an entry iff it has a direct media URL, extension in {mp4, webm} and a
non-zero exact-or-approximate size, and it either declares a video codec with
height at least 144 (quality `<height>p`, has-audio iff an audio codec is
present) or declares no video codec but a non-none audio codec (quality
`audio`, has-audio true, height null); everything else is discarded. -/
def specClassify (f : RawFormat) : Option FormatDescriptor :=
  match f.url, specResolvedSize f with
  | none, _ => none
  | _, none => none
  | some u, some size =>
    if u = [] then none
    else
      let ext := f.ext.getD ("mp4".toList)
      if ¬ (ext = "mp4".toList ∨ ext = "webm".toList) then none
      else
        let vc := f.vcodec.getD ("none".toList)
        let ac := f.acodec.getD ("none".toList)
        match f.height with
        | some h =>
          if vc ≠ "none".toList ∧ 144 ≤ h then
            some { format_id := f.format_id
                   quality := natChars h ++ ['p']
                   ext := ext
                   filesize := size
                   filesize_mb := filesizeMB size
                   has_audio := decide (ac ≠ "none".toList)
                   height := some h }
          else if vc = "none".toList ∧ ac ≠ "none".toList then
            some { format_id := f.format_id
                   quality := "audio".toList
                   ext := ext
                   filesize := size
                   filesize_mb := filesizeMB size
                   has_audio := true
                   height := none }
          else none
        | none =>
          if vc = "none".toList ∧ ac ≠ "none".toList then
            some { format_id := f.format_id
                   quality := "audio".toList
                   ext := ext
                   filesize := size
                   filesize_mb := filesizeMB size
                   has_audio := true
                   height := none }
          else none

/-! ### Request and collaborator model -/

/-- The JSON body of a request, as the handlers read it with `data.get`.
`url` is `none` when the field is absent (the code defaults it to `''`);
`format` is `none` when absent (the code defaults it to `'video'`), and
`some none` when the field holds JSON null. -/
structure Req where
  url : Option (List Char)
  format : Option (Option (List Char))
  format_id : Option (List Char)

/-- `data.get('format', 'video')`. -/
def getFormatField (fmt : Option (Option (List Char))) : Option (List Char) :=
  match fmt with
  | none => some ("video".toList)
  | some v => v

/-- One yt-dlp postprocessor entry of the download options. -/
inductive PP where
  | extractAudio (preferredcodec preferredquality : List Char)
  | videoConvertor (preferedformat : List Char)

/-- The configuration map handed to the download collaborator. -/
structure DlOpts where
  format : Option (List Char)
  postprocessors : List PP
  outtmpl : List Char
  quiet : Bool
  verbose : Option Bool
  user_agent : List Char
  nocheckcertificate : Bool
  age_limit : Option Nat
  merge_output_format : Option (List Char)

/-- The browser user-agent string both handlers send. -/
def browserUA : List Char :=
  ("Mozilla/5.0 (Windows NT 10.0; Win64; x64) AppleWebKit/537.36 (KHTML, like Gecko) Chrome/120.0.0.0 Safari/537.36").toList

/-- `os.path.join(DOWNLOAD_FOLDER, '%(title)s.%(ext)s')`. -/
def outputTemplate : List Char :=
  ("downloads/%(title)s.%(ext)s").toList

/-- The audio branch's `ydl_opts` (src/app.py lines 215-229). -/
def audio_opts : DlOpts where
  format := some ("bestaudio/best".toList)
  postprocessors := [PP.extractAudio ("mp3".toList) ("192".toList)]
  outtmpl := outputTemplate
  quiet := false
  verbose := none
  user_agent := browserUA
  nocheckcertificate := true
  age_limit := none
  merge_output_format := none

/-- The video branch's `ydl_opts` (src/app.py lines 230-245). -/
def video_opts (format_id : Option (List Char)) : DlOpts where
  format := format_id
  postprocessors := [PP.videoConvertor ("mp4".toList)]
  outtmpl := outputTemplate
  quiet := false
  verbose := some true
  user_agent := browserUA
  nocheckcertificate := true
  age_limit := none
  merge_output_format := some ("mp4".toList)

/-- `if download_format == 'audio': ... else: ...` building the options. -/
def buildOpts (download_format : Option (List Char)) (format_id : Option (List Char)) : DlOpts :=
  if download_format = some ("audio".toList) then audio_opts else video_opts format_id

/-- The shared `downloads` output directory, as the list of filenames in it. -/
structure FS where
  files : List (List Char)

/-- What `ydl.extract_info(url, download=True)` returns about the produced
file: the resolved title (`info['title']`) and extension (`info.get('ext')`). -/
structure MediaInfo where
  title : List Char
  ext : Option (List Char)

/-- One blocking collaborator call: either it returns metadata and the new
directory contents, or it raises with some message (a failed download may
still have changed the directory). -/
inductive ExtractOutcome where
  | ok (info : MediaInfo) (fs : FS)
  | exn (msg : List Char) (fs : FS)

/-- The download-mode extraction collaborator, a black box. -/
structure Collab where
  run : DlOpts → List Char → FS → ExtractOutcome

/-- The metadata returned by `ydl.extract_info(url, download=False)`. -/
structure RawInfo where
  title : Option (List Char)
  thumbnail : Option (List Char)
  duration : Option Nat
  uploader : Option (List Char)
  view_count : Option Nat
  formats : List RawFormat

/-- One metadata-mode collaborator call: metadata or an exception. -/
inductive InfoOutcome where
  | ok (info : RawInfo)
  | exn (msg : List Char)

/-- The metadata-mode extraction collaborator, a black box. -/
structure InfoCollab where
  run : List Char → InfoOutcome

/-- The `video_info` JSON the metadata handler returns. -/
structure VideoInfo where
  title : List Char
  thumbnail : List Char
  duration : Nat
  channel : List Char
  view_count : Nat
  formats : List FormatDescriptor

/-- A handler's outcome: a JSON error with an HTTP status, the metadata JSON,
a file attachment (with the cleanup callbacks registered on the response via
`response.call_on_close`), or an exception that escapes the handler
uncaught. -/
inductive HResp where
  | json (status : Nat) (error : List Char)
  | info (v : VideoInfo)
  | file (filename : List Char) (callbacks : List (List Char))
  | uncaught (msg : List Char)

/-! ### The metadata handler (src/app.py lines 64-175) -/

/-- Embedding of `get_video_info` (src/app.py lines 64-175), returning the
response together with how many collaborator calls were made. -/
def get_video_info (c : InfoCollab) (req : Req) : HResp × Nat :=
  let url := pyStrip (req.url.getD [])
  if url.isEmpty then (.json 400 ("URL is required".toList), 0)
  else if !matchYoutubeChars url then (.json 400 ("Invalid YouTube URL".toList), 0)
  else
    match c.run url with
    | .exn e => (.json 500 ("Failed to fetch video info: ".toList ++ e), 1)
    | .ok info =>
      (.info { title := info.title.getD ("Unknown Title".toList)
               thumbnail := info.thumbnail.getD []
               duration := info.duration.getD 0
               channel := info.uploader.getD ("Unknown Channel".toList)
               view_count := info.view_count.getD 0
               formats := processFormats info.formats }, 1)

/-! ### The download handler (src/app.py lines 178-410) -/

/-- The filter of the `possible_files` comprehension (src/app.py lines
261-262): starts with `base_name`, ends with `ext`, and does not end with
`ext + '_'` or `.part`. -/
def fileMatches (base ext f : List Char) : Bool :=
  base.isPrefixOf f && ext.isSuffixOf f
    && !((ext ++ ['_']).isSuffixOf f) && !((".part".toList).isSuffixOf f)

/-- `possible_files` itself. -/
def matchesOf (files : List (List Char)) (base ext : List Char) : List (List Char) :=
  files.filter (fun f => fileMatches base ext f)

/-- Python `min(possible_files, key=len)`: the first element of minimal
length (later elements replace the running best only when strictly shorter),
or `none` on an empty list. -/
def pyMinByLen : List (List Char) → Option (List Char)
  | [] => none
  | x :: xs => some (xs.foldl (fun best f => if f.length < best.length then f else best) x)

/-- The file-location logic (src/app.py lines 261-272): the shortest matching
filename when any exists, else the exact `base_name + ext` when that file
exists, else nothing. -/
def findFile (files : List (List Char)) (base ext : List Char) : Option (List Char) :=
  match pyMinByLen (matchesOf files base ext) with
  | some fn => some fn
  | none => if (base ++ ext) ∈ files then some (base ++ ext) else none

/-- `os.rename(filepath, new_filepath)` on the directory listing. -/
def renameFile (files : List (List Char)) (old new : List Char) : List (List Char) :=
  files.map (fun g => if g = old then new else g)

/-- The trailing-underscore normalisation (src/app.py lines 274-286): if the
selected filename ends with `.mp4_` or `.webm_`, rename the file to the name
without its last character. -/
def normalizeName (files : List (List Char)) (filename : List Char) :
    List (List Char) × List Char :=
  if (".mp4_".toList).isSuffixOf filename then
    (renameFile files filename filename.dropLast, filename.dropLast)
  else if (".webm_".toList).isSuffixOf filename then
    (renameFile files filename filename.dropLast, filename.dropLast)
  else (files, filename)

/-- Locate, normalise and serve the file after a successful collaborator call
(src/app.py lines 252-304): the 500 "file not found" fallback leaves the
directory untouched; the success path registers exactly one cleanup callback
for the (post-rename) file path on the response. -/
def serveFile (fs : FS) (base ext : List Char) : HResp × FS :=
  match findFile fs.files base ext with
  | none => (.json 500 ("Download completed but file not found".toList), fs)
  | some filename =>
    let p := normalizeName fs.files filename
    (.file p.2 [p.2], ⟨p.1⟩)

/-- `info.get('ext') or 'mp4'`: Python `or` falls through on `None` and on
the empty string. -/
def pyOrExt (v : Option (List Char)) : List Char :=
  match v with
  | none => "mp4".toList
  | some e => if e.isEmpty then "mp4".toList else e

/-- One pass of the download handler's `try` body (src/app.py lines
194-304): validation, option building, the collaborator call, and on its
success the locate/normalise/serve step.  `Except.error` is an exception
raised by the collaborator call; the second component counts collaborator
calls. -/
def tryDownloadBody (c : Collab) (req : Req) (fs : FS) :
    Except (List Char × FS) (HResp × FS) × Nat :=
  let url := pyStrip (req.url.getD [])
  let download_format := getFormatField req.format
  if url.isEmpty then (.ok (.json 400 ("URL is required".toList), fs), 0)
  else if !matchYoutubeChars url then (.ok (.json 400 ("Invalid YouTube URL".toList), fs), 0)
  else
    let opts := buildOpts download_format req.format_id
    match c.run opts url fs with
    | .exn e fs' => (.error (e, fs'), 1)
    | .ok info fs' =>
      let ext := if download_format = some ("audio".toList) then ".mp3".toList
                 else '.' :: pyOrExt info.ext
      let base := sanitizeChars info.title
      (.ok (serveFile fs' base ext), 1)

/-- Embedding of `download_video` (src/app.py lines 178-410).  The `except`
clause at line 306 contains a full duplicate of the handler body, so an
exception in the first pass runs the whole body (including a second
collaborator call) a second time; an exception in that duplicate body
propagates out of the handler, because the second `except` clause at line 409
(the `'Download failed: ...'` 500 response) can never run: the first `except
Exception` clause already catches every exception of the `try` body, and
exceptions raised inside an `except` block are not caught by a sibling
clause.  Returns the response, the final directory contents, and the number
of collaborator calls made. -/
def download_video (c : Collab) (req : Req) (fs : FS) : HResp × FS × Nat :=
  match tryDownloadBody c req fs with
  | (.ok (resp, fs'), n) => (resp, fs', n)
  | (.error (_, fsE), n) =>
    match tryDownloadBody c req fsE with
    | (.ok (resp, fs'), m) => (resp, fs', n + m)
    | (.error (e2, fs2), m) => (.uncaught e2, fs2, n + m)

/-! ### Cleanup after sending (src/app.py lines 296-302) -/

/-- The body of the registered `cleanup()` callback: `if
os.path.exists(filepath): os.remove(filepath)`, with any exception swallowed
and counted as one logged error (`removeRaises` says whether the `os.remove`
call raises). -/
def cleanupRun (filepath : List Char) (removeRaises : Bool) (fs : FS) : FS × Nat :=
  if filepath ∈ fs.files then
    if removeRaises then (fs, 1) else (⟨fs.files.erase filepath⟩, 0)
  else (fs, 0)

/-- Modelled from the spec: the response-close event of the web framework
(`response.call_on_close`, whose runtime lives in Flask/Werkzeug, not in this
repository) runs each callback registered on the response exactly once after
the response body has been transmitted, regardless of whether the client
consumed it.  Returns the directory contents afterwards and the number of
logged (swallowed) cleanup errors. -/
def responseClose (callbacks : List (List Char)) (removeRaises : List Char → Bool)
    (fs : FS) : FS × Nat :=
  callbacks.foldl
    (fun acc fp =>
      let r := cleanupRun fp (removeRaises fp) acc.1
      (r.1, acc.2 + r.2))
    (fs, 0)

/-! ### Concrete scenarios used as evidence -/

/-- A collaborator whose every call raises with message `boom`. -/
def failingCollab : Collab :=
  ⟨fun _ _ fs => .exn ("boom".toList) fs⟩

/-- A valid video download request. -/
def videoReq : Req where
  url := some ("https://www.youtube.com/watch?v=dQw4w9WgXcQ".toList)
  format := some (some ("video".toList))
  format_id := some ("22".toList)

/-- A collaborator that resolves the title `My Title` with extension `mp4`
but leaves only the intermediate file `My Title.mp4_` (the trailing
underscore artifact) in the output directory. -/
def underscoreCollab : Collab :=
  ⟨fun _ _ _ => .ok ⟨"My Title".toList, some ("mp4".toList)⟩ ⟨["My Title.mp4_".toList]⟩⟩

/-- A valid audio download request. -/
def audioReq : Req where
  url := some ("https://youtu.be/dQw4w9WgXcQ".toList)
  format := some (some ("audio".toList))
  format_id := none

/-- A collaborator that resolves the title `My Song` and writes
`My Song.mp3` into the output directory. -/
def audioCollab : Collab :=
  ⟨fun _ _ _ => .ok ⟨"My Song".toList, some ("mp3".toList)⟩ ⟨["My Song.mp3".toList]⟩⟩

/-- A constant no-failure oracle for `os.remove`. -/
def removeNeverRaises : List Char → Bool :=
  fun _ => false

/-- A constant always-failing oracle for `os.remove`. -/
def removeAlwaysRaises : List Char → Bool :=
  fun _ => true

/-! ### Helper lemmas -/

theorem filter_eq_removeInvalid (l : List Char) :
    l.filter (fun c => !invalidFileChar c) = removeInvalid l := by
  induction l with
  | nil => rfl
  | cons c cs ih =>
    by_cases h : invalidFileChar c = true
    · simp [List.filter_cons, removeInvalid, h, ih]
    · simp only [Bool.not_eq_true] at h
      simp [List.filter_cons, removeInvalid, h, ih]

theorem foldl_len_min (xs : List (List Char)) :
    ∀ x : List Char,
      (xs.foldl (fun best f => if f.length < best.length then f else best) x = x
        ∨ xs.foldl (fun best f => if f.length < best.length then f else best) x ∈ xs)
      ∧ (xs.foldl (fun best f => if f.length < best.length then f else best) x).length ≤ x.length
      ∧ ∀ f ∈ xs,
          (xs.foldl (fun best f => if f.length < best.length then f else best) x).length ≤ f.length := by
  induction xs with
  | nil =>
    intro x
    exact ⟨Or.inl rfl, le_refl _, by intro f hf; cases hf⟩
  | cons y ys ih =>
    intro x
    rw [List.foldl_cons]
    by_cases hyx : y.length < x.length
    · rw [if_pos hyx]
      obtain ⟨hmem, hlen, hall⟩ := ih y
      refine ⟨?_, le_trans hlen (le_of_lt hyx), ?_⟩
      · rcases hmem with h | h
        · exact Or.inr (by rw [h]; exact List.mem_cons_self y ys)
        · exact Or.inr (List.mem_cons_of_mem y h)
      · intro f hf
        rcases List.mem_cons.mp hf with rfl | hf'
        · exact hlen
        · exact hall f hf'
    · rw [if_neg hyx]
      obtain ⟨hmem, hlen, hall⟩ := ih x
      refine ⟨?_, hlen, ?_⟩
      · rcases hmem with h | h
        · exact Or.inl h
        · exact Or.inr (List.mem_cons_of_mem y h)
      · intro f hf
        rcases List.mem_cons.mp hf with rfl | hf'
        · exact le_trans hlen (le_of_not_lt hyx)
        · exact hall f hf'

/-! ### Claim theorems -/

/-- C5: for every string `s`, `sanitize_filename s` contains no occurrence of
any of the characters `< > : " / \ | ? *`, has length at most 200, and equals
the result of first removing every occurrence of those characters and then
truncating to the first 200 characters. -/
theorem claim_C5 (s : String) :
    (sanitize_filename s).data.all (fun c => !invalidFileChar c) = true
    ∧ (sanitize_filename s).length ≤ 200
    ∧ sanitize_filename s = String.mk ((removeInvalid s.data).take 200) := by
  refine ⟨?_, ?_, ?_⟩
  · rw [List.all_eq_true]
    intro c hc
    have hc' : c ∈ s.data.filter (fun c => !invalidFileChar c) :=
      List.take_subset _ _ hc
    exact (List.mem_filter.mp hc').2
  · show (sanitizeChars s.data).length ≤ 200
    exact List.length_take_le _ _
  · show String.mk (sanitizeChars s.data) = _
    rw [sanitizeChars, filter_eq_removeInvalid]

/-- C10: for every value of the request's `format` field other than the exact
string `audio` — including an absent field (which `data.get` defaults to
`video`), JSON null, and any unrecognized string — the download handler
builds the video options: the client-supplied `format_id` as the yt-dlp
format selector, `merge_output_format` mp4, the `FFmpegVideoConvertor` mp4
postprocessor, and never the audio/MP3 options. -/
theorem claim_C10 (fmtField : Option (Option (List Char))) (fid : Option (List Char)) :
    getFormatField none = some ("video".toList)
    ∧ (getFormatField fmtField ≠ some ("audio".toList) →
        buildOpts (getFormatField fmtField) fid = video_opts fid
        ∧ (buildOpts (getFormatField fmtField) fid).format = fid
        ∧ (buildOpts (getFormatField fmtField) fid).merge_output_format = some ("mp4".toList)
        ∧ (buildOpts (getFormatField fmtField) fid).postprocessors
            = [PP.videoConvertor ("mp4".toList)]
        ∧ buildOpts (getFormatField fmtField) fid ≠ audio_opts) := by
  refine ⟨rfl, ?_⟩
  intro h
  have hb : buildOpts (getFormatField fmtField) fid = video_opts fid := by
    unfold buildOpts
    rw [if_neg h]
  refine ⟨hb, by rw [hb]; rfl, by rw [hb]; rfl, by rw [hb]; rfl, ?_⟩
  rw [hb]
  intro he
  have hpp := congrArg DlOpts.postprocessors he
  simp [video_opts, audio_opts] at hpp

/-- C8: in both handlers the `url` field is trimmed and then validated in
order: a trimmed-empty url yields HTTP 400 `URL is required`, a trimmed url
failing the validator yields HTTP 400 `Invalid YouTube URL`; in both failure
cases the collaborator call count is 0 and the output directory is returned
unchanged. -/
theorem claim_C8 (ic : InfoCollab) (dc : Collab) (req : Req) (fs : FS) :
    (pyStrip (req.url.getD []) = [] →
      get_video_info ic req = (.json 400 ("URL is required".toList), 0)
      ∧ download_video dc req fs = (.json 400 ("URL is required".toList), fs, 0))
    ∧ (pyStrip (req.url.getD []) ≠ [] →
        matchYoutubeChars (pyStrip (req.url.getD [])) = false →
        get_video_info ic req = (.json 400 ("Invalid YouTube URL".toList), 0)
        ∧ download_video dc req fs = (.json 400 ("Invalid YouTube URL".toList), fs, 0)) := by
  constructor
  · intro h
    constructor
    · unfold get_video_info
      simp [h]
    · unfold download_video tryDownloadBody
      simp [h]
  · intro hne hm
    have hemp : (pyStrip (req.url.getD [])).isEmpty = false := by
      cases hpe : pyStrip (req.url.getD []) with
      | nil => exact absurd hpe hne
      | cons a as => rfl
    constructor
    · unfold get_video_info
      simp [hemp, hm]
    · unfold download_video tryDownloadBody
      simp [hemp, hm]

/-- C3: after a successful collaborator call, the handler selects from the
output directory the shortest filename that starts with `base`, ends with
`ext` and does not end with `ext + '_'` or `.part`; and when no filename
matches and the exact `base + ext` path does not exist, it answers HTTP 500
`Download completed but file not found` and leaves the directory unchanged
(no file is deleted). -/
theorem claim_C3 (files : List (List Char)) (base ext : List Char) :
    (matchesOf files base ext ≠ [] →
      ∃ m, findFile files base ext = some m
        ∧ m ∈ matchesOf files base ext
        ∧ ∀ f ∈ matchesOf files base ext, m.length ≤ f.length)
    ∧ (matchesOf files base ext = [] → (base ++ ext) ∉ files →
        serveFile ⟨files⟩ base ext
          = (.json 500 ("Download completed but file not found".toList), ⟨files⟩)) := by
  constructor
  · intro hne
    cases hm : matchesOf files base ext with
    | nil => exact absurd hm hne
    | cons y ys =>
      obtain ⟨hmem, _, hall⟩ :=
        foldl_len_min ys y
      refine ⟨ys.foldl (fun best f => if f.length < best.length then f else best) y, ?_, ?_, ?_⟩
      · unfold findFile
        rw [hm]
        rfl
      · rcases hmem with h | h
        · exact by rw [h]; exact List.mem_cons_self y ys
        · exact List.mem_cons_of_mem y h
      · intro f hf
        rcases List.mem_cons.mp hf with rfl | hf'
        · exact (foldl_len_min ys f).2.1
        · exact hall f hf'
  · intro hm hnotin
    unfold serveFile findFile
    rw [show (FS.mk files).files = files from rfl, hm]
    simp [pyMinByLen, hnotin]

/-- C1: the claim that any exception in the download branch is caught and
reported as HTTP 500 with the exception text, with no retry, fails on the
code: the `except` clause at src/app.py line 306 re-runs the whole handler
body, so a collaborator that raises `boom` on every call is invoked twice
(one retry), and the result is an uncaught exception escaping the handler,
never a JSON 500 response. -/
theorem claim_C1_eval :
    download_video failingCollab videoReq ⟨[]⟩ = (.uncaught ("boom".toList), ⟨[]⟩, 2)
    ∧ ∀ status msg,
        (download_video failingCollab videoReq ⟨[]⟩).1 ≠ HResp.json status msg :=
  ⟨rfl, fun _ _ h => nomatch h⟩

/-- C2: the claim that a collaborator-written `My Title.mp4_` is selected,
renamed to `My Title.mp4` and served fails on the code: `'My Title.mp4_'`
does not end with `'.mp4'`, so the `possible_files` filter rejects it, the
exact-path fallback misses, and the handler answers HTTP 500
`Download completed but file not found` with the underscore file left on
disk and never renamed. -/
theorem claim_C2_eval :
    download_video underscoreCollab videoReq ⟨[]⟩
      = (.json 500 ("Download completed but file not found".toList),
          ⟨["My Title.mp4_".toList]⟩, 1)
    ∧ fileMatches ("My Title".toList) (".mp4".toList) ("My Title.mp4_".toList) = false :=
  ⟨rfl, rfl⟩

theorem serveFile_file_callbacks (fs : FS) (base ext fn : List Char)
    (cbs : List (List Char)) (fs2 : FS)
    (h : serveFile fs base ext = (.file fn cbs, fs2)) : cbs = [fn] := by
  unfold serveFile at h
  cases hf : findFile fs.files base ext with
  | none =>
    rw [hf] at h
    exact HResp.noConfusion (congrArg Prod.fst h)
  | some filename =>
    rw [hf] at h
    simp only [Prod.mk.injEq, HResp.file.injEq] at h
    obtain ⟨⟨hfn, hcbs⟩, _⟩ := h
    rw [← hcbs, ← hfn]

theorem tryBody_file_callbacks (c : Collab) (req : Req) (fs : FS) (fn : List Char)
    (cbs : List (List Char)) (fs2 : FS) (n : Nat)
    (h : tryDownloadBody c req fs = (.ok (.file fn cbs, fs2), n)) : cbs = [fn] := by
  simp only [tryDownloadBody] at h
  split at h
  · simp at h
  · split at h
    · simp at h
    · split at h
      · simp at h
      · simp only [Prod.mk.injEq, Except.ok.injEq] at h
        exact serveFile_file_callbacks _ _ _ _ _ _ h.1

/-- C9: every download that successfully initiates a file transfer registers
exactly one cleanup callback, bound to the close of that response, for the
served file; running the close event deletes exactly that file from the
directory when deletion succeeds, and a deletion failure is swallowed as one
logged error with the directory unchanged — it never surfaces; when the file
is already gone the callback does nothing.  The close event itself firing
exactly once after body transmission is the web framework's contract,
modelled by `responseClose`. -/
theorem claim_C9 (c : Collab) (req : Req) (fs : FS) (fn : List Char)
    (cbs : List (List Char)) (fs' : FS) (n : Nat)
    (h : download_video c req fs = (.file fn cbs, fs', n)) :
    cbs = [fn]
    ∧ (∀ g : FS, responseClose cbs removeNeverRaises g = (⟨g.files.erase fn⟩, 0))
    ∧ (∀ g : FS, fn ∈ g.files → responseClose cbs removeAlwaysRaises g = (g, 1))
    ∧ (∀ g : FS, fn ∉ g.files → ∀ rm : List Char → Bool,
        responseClose cbs rm g = (g, 0)) := by
  have hc : cbs = [fn] := by
    unfold download_video at h
    split at h
    · rename_i resp fs2 n0 heq
      simp only [Prod.mk.injEq] at h
      obtain ⟨h1, h2, h3⟩ := h
      subst h1
      subst h2
      exact tryBody_file_callbacks _ _ _ _ _ _ _ heq
    · rename_i e fsE n0 heq
      split at h
      · rename_i resp fs2 m heq2
        simp only [Prod.mk.injEq] at h
        obtain ⟨h1, h2, h3⟩ := h
        subst h1
        subst h2
        exact tryBody_file_callbacks _ _ _ _ _ _ _ heq2
      · rename_i e2 fs2 m heq2
        simp only [Prod.mk.injEq] at h
        exact HResp.noConfusion h.1
  subst hc
  refine ⟨rfl, ?_, ?_, ?_⟩
  · intro g
    by_cases hg : fn ∈ g.files
    · simp [responseClose, cleanupRun, removeNeverRaises, hg]
    · simp [responseClose, cleanupRun, removeNeverRaises, hg,
        List.erase_of_not_mem hg]
  · intro g hg
    simp [responseClose, cleanupRun, removeAlwaysRaises, hg]
  · intro g hg rm
    simp [responseClose, cleanupRun, hg]

theorem claim_C9_witness :
    responseClose ["My Song.mp3".toList] removeNeverRaises ⟨["My Song.mp3".toList]⟩
      = (⟨[]⟩, 0) :=
  (claim_C9 audioCollab audioReq ⟨[]⟩ ("My Song.mp3".toList) ["My Song.mp3".toList]
      ⟨["My Song.mp3".toList]⟩ 1 rfl).2.1 ⟨["My Song.mp3".toList]⟩

theorem bne_eq_decide_ne {α : Type} [DecidableEq α] [BEq α] [LawfulBEq α] (a b : α) :
    (a != b) = decide (¬ a = b) := by
  by_cases h : a = b <;> simp [h]

theorem usedSize_eq_spec (f : RawFormat) : usedSize f = specResolvedSize f := by
  rcases f with ⟨u, e, fs, fa, v, a, h, fid⟩
  simp only [usedSize, specResolvedSize, pyTruthyNat]
  cases fs with
  | none =>
    cases fa with
    | none => rfl
    | some m =>
      by_cases hm : m = 0
      · subst hm
        rfl
      · simp [hm]
  | some n =>
    by_cases hn : n = 0
    · subst hn
      cases fa with
      | none => rfl
      | some m =>
        by_cases hm : m = 0
        · subst hm
          rfl
        · simp [hm]
    · simp [hn]


theorem keepRaw_eq_spec (f : RawFormat) : keepRaw f = specClassify f := by
  unfold keepRaw specClassify
  rw [← usedSize_eq_spec f]
  cases hu : f.url with
  | none => simp [pyTruthyStr]
  | some u =>
    by_cases hue : u = []
    · subst hue
      cases hs : usedSize f <;> simp [pyTruthyStr]
    · have h1 : pyTruthyStr (some u) = true := by
        simp [pyTruthyStr, hue]
      simp only [h1, Bool.not_true, Bool.false_eq_true, if_false]
      by_cases he : f.ext.getD ("mp4".toList) = "mp4".toList
        ∨ f.ext.getD ("mp4".toList) = "webm".toList
      · have he' : (f.ext.getD ("mp4".toList) == "mp4".toList
            || f.ext.getD ("mp4".toList) == "webm".toList) = true := by
          simp only [Bool.or_eq_true, beq_iff_eq]
          exact he
        simp only [he', Bool.not_true, Bool.false_eq_true, if_false, if_neg (not_not_intro he)]
        cases hs : usedSize f with
        | none => simp [hue]
        | some size =>
          simp only [hue, if_neg hue]
          by_cases hv : f.vcodec.getD ("none".toList) = "none".toList
          · by_cases ha : f.acodec.getD ("none".toList) = "none".toList
            · cases hh : f.height <;> simp_all [pyTruthyNat]
            · cases hh : f.height <;> simp_all [pyTruthyNat]
          · cases hh : f.height with
            | none => simp_all [pyTruthyNat]
            | some hgt =>
              by_cases hge : 144 ≤ hgt
              · have hnz : hgt ≠ 0 := by omega
                simp_all [pyTruthyNat, bne_eq_decide_ne]
              · simp_all [pyTruthyNat]
                split_ifs <;> first | rfl | omega
      · have he' : (f.ext.getD ("mp4".toList) == "mp4".toList
            || f.ext.getD ("mp4".toList) == "webm".toList) = false := by
          simp only [Bool.or_eq_false_iff, beq_eq_false_iff_ne, ne_eq]
          push_neg at he
          exact he
        simp only [he', Bool.not_false, if_true, if_pos he]
        cases hs : usedSize f <;> simp [hue]

theorem filterMap_congr_fun {α β : Type} (f g : α → Option β) (h : ∀ a, f a = g a)
    (l : List α) : l.filterMap f = l.filterMap g := by
  induction l with
  | nil => rfl
  | cons x xs ih => simp [List.filterMap_cons, h x, ih]

theorem keep_fields (f : RawFormat) (d : FormatDescriptor) (h : keepRaw f = some d) :
    d.filesize_mb = filesizeMB d.filesize
    ∧ (d.height = none ∨ ∃ hgt, d.height = some hgt ∧ 144 ≤ hgt) := by
  simp only [keepRaw] at h
  split at h
  · exact absurd h (by simp)
  · split at h
    · exact absurd h (by simp)
    · split at h
      · exact absurd h (by simp)
      · split at h
        · rename_i hcond
          rw [Option.some.injEq] at h
          subst h
          refine ⟨rfl, Or.inr ?_⟩
          simp only [Bool.and_eq_true, decide_eq_true_eq] at hcond
          obtain ⟨⟨_, hth⟩, hge⟩ := hcond
          cases hh : f.height with
          | none => rw [hh] at hth; exact absurd hth (by simp [pyTruthyNat])
          | some hgt =>
            refine ⟨hgt, rfl, ?_⟩
            rw [hh] at hge
            exact hge
        · split at h
          · rw [Option.some.injEq] at h
            subst h
            exact ⟨rfl, Or.inl rfl⟩
          · exact absurd h (by simp)

theorem processFormats_height_inv (raw : List RawFormat) (d : FormatDescriptor)
    (hd : d ∈ processFormats raw) :
    d.height = none ∨ ∃ hgt, d.height = some hgt ∧ 144 ≤ hgt := by
  rw [processFormats, List.mem_mergeSort, List.mem_filterMap] at hd
  obtain ⟨f, _, hf⟩ := hd
  exact (keep_fields f d hf).2

/-- C6: for every raw format list, the metadata handler's format list is a
permutation of (contains exactly) the spec-classified entries — direct media
URL, extension in {mp4, webm}, non-zero exact-or-approximate size, video rule
(video codec, height at least 144, quality `<height>p`, has-audio iff an
audio codec is present) or audio rule (no video codec, non-none audio codec,
quality `audio`, has-audio true, height null), everything else discarded —
and every emitted descriptor carries `filesize_mb = round(filesize/1048576,
2)`. -/
theorem claim_C6 (raw : List RawFormat) :
    (processFormats raw).Perm (raw.filterMap specClassify)
    ∧ (processFormats raw).all
        (fun d => decide (d.filesize_mb = filesizeMB d.filesize)) = true := by
  constructor
  · show (raw.filterMap keepRaw).mergeSort formatsSortLE |>.Perm _
    rw [filterMap_congr_fun keepRaw specClassify keepRaw_eq_spec raw]
    exact List.mergeSort_perm _ _
  · rw [List.all_eq_true]
    intro d hd
    rw [decide_eq_true_eq]
    rw [processFormats, List.mem_mergeSort, List.mem_filterMap] at hd
    obtain ⟨f, _, hf⟩ := hd
    exact (keep_fields f d hf).1

/-- C7: the format list returned by the metadata handler is sorted in
descending order of height with null height treated as 0, and consequently no
audio-only entry (null height) ever precedes a video entry (the only possible
tie, equal heights, cannot pair an audio entry with a video entry because
every emitted video entry has height at least 144). -/
theorem claim_C7 (raw : List RawFormat) :
    (processFormats raw).Pairwise (fun a b => heightKey b ≤ heightKey a)
    ∧ (processFormats raw).Pairwise (fun a b => isVideoDesc b ≤ isVideoDesc a) := by
  have hsorted : (processFormats raw).Pairwise (fun a b => formatsSortLE a b) := by
    show ((raw.filterMap keepRaw).mergeSort formatsSortLE).Pairwise _
    exact List.sorted_mergeSort
      (by
        intro a b c h1 h2
        simp only [formatsSortLE, decide_eq_true_eq] at h1 h2 ⊢
        omega)
      (by
        intro a b
        simp only [formatsSortLE, Bool.or_eq_true, decide_eq_true_eq]
        omega)
      (raw.filterMap keepRaw)
  have hkey : (processFormats raw).Pairwise (fun a b => heightKey b ≤ heightKey a) :=
    hsorted.imp (by
      intro a b hab
      simpa [formatsSortLE] using hab)
  refine ⟨hkey, ?_⟩
  refine List.Pairwise.imp_of_mem ?_ hkey
  intro a b ha hb hab
  cases hbv : b.height with
  | none =>
    simp [isVideoDesc, hbv]
  | some hb' =>
    rcases processFormats_height_inv raw b hb with hnone | ⟨hgt, hsome, hge⟩
    · rw [hbv] at hnone
      exact absurd hnone (by simp)
    · rw [hbv, Option.some.injEq] at hsome
      have hge' : 144 ≤ hb' := hsome ▸ hge
      have hkb : heightKey b = hb' := by
        simp [heightKey, hbv]
      cases hav : a.height with
      | none =>
        have hka : heightKey a = 0 := by
          simp [heightKey, hav]
        rw [hkb, hka] at hab
        omega
      | some ha' =>
        simp [isVideoDesc, hav, hbv]

theorem noNewlineTail_iff : ∀ l : List Char,
    noNewlineTail l = true ↔ ∃ b t, l = b ++ t ∧ '\n' ∉ b ∧ (t = [] ∨ t = ['\n']) := by
  intro l
  induction l with
  | nil =>
    constructor
    · intro _
      exact ⟨[], [], rfl, by simp, Or.inl rfl⟩
    · intro _
      rfl
  | cons c cs ih =>
    cases cs with
    | nil =>
      constructor
      · intro _
        by_cases hc : c = '\n'
        · exact ⟨[], ['\n'], by rw [hc]; rfl, by simp, Or.inr rfl⟩
        · exact ⟨[c], [], rfl, by simpa using fun h => hc h.symm, Or.inl rfl⟩
      · intro _
        rfl
    | cons d ds =>
      rw [show noNewlineTail (c :: d :: ds)
          = (decide (c ≠ '\n') && noNewlineTail (d :: ds)) from rfl]
      rw [Bool.and_eq_true, decide_eq_true_eq]
      constructor
      · rintro ⟨hcn, htail⟩
        obtain ⟨b, t, hbt, hnb, hto⟩ := ih.mp htail
        refine ⟨c :: b, t, by rw [List.cons_append, hbt], ?_, hto⟩
        intro hm
        rcases List.mem_cons.mp hm with h | h
        · exact hcn h.symm
        · exact hnb h
      · rintro ⟨b, t, hbt, hnb, hto⟩
        cases b with
        | nil =>
          exfalso
          rcases hto with rfl | rfl
          · simp at hbt
          · rw [List.nil_append] at hbt
            simp at hbt
        | cons b0 bs =>
          rw [List.cons_append, List.cons.injEq] at hbt
          obtain ⟨hcb, htl⟩ := hbt
          subst hcb
          refine ⟨?_, ih.mpr ⟨bs, t, htl, fun h => hnb (List.mem_cons_of_mem _ h), hto⟩⟩
          intro hcn
          exact hnb (hcn ▸ List.mem_cons_self c bs)

theorem dotPlusDollar_iff (l : List Char) :
    dotPlusDollar l = true
      ↔ ∃ r t, l = r ++ t ∧ r ≠ [] ∧ '\n' ∉ r ∧ (t = [] ∨ t = ['\n']) := by
  cases l with
  | nil =>
    constructor
    · intro h
      exact absurd h (by simp [dotPlusDollar])
    · rintro ⟨r, t, hbt, hr, _, _⟩
      exfalso
      rw [eq_comm, List.append_eq_nil] at hbt
      exact hr hbt.1
  | cons c cs =>
    rw [show dotPlusDollar (c :: cs) = (decide (c ≠ '\n') && noNewlineTail cs) from rfl]
    rw [Bool.and_eq_true, decide_eq_true_eq]
    constructor
    · rintro ⟨hcn, htail⟩
      obtain ⟨b, t, hbt, hnb, hto⟩ := (noNewlineTail_iff cs).mp htail
      refine ⟨c :: b, t, by rw [List.cons_append, hbt], by simp, ?_, hto⟩
      intro hm
      rcases List.mem_cons.mp hm with h | h
      · exact hcn h.symm
      · exact hnb h
    · rintro ⟨r, t, hbt, hrne, hnr, hto⟩
      cases r with
      | nil => exact absurd rfl hrne
      | cons r0 rs =>
        rw [List.cons_append, List.cons.injEq] at hbt
        obtain ⟨hcb, htl⟩ := hbt
        subst hcb
        refine ⟨?_, (noNewlineTail_iff cs).mpr
          ⟨rs, t, htl, fun h => hnr (List.mem_cons_of_mem _ h), hto⟩⟩
        intro hcn
        exact hnr (hcn ▸ List.mem_cons_self c rs)

theorem prefix_decomp {A s : List Char} (h : A.isPrefixOf s = true) :
    ∃ u, s = A ++ u := by
  rw [List.isPrefixOf_iff_prefix] at h
  obtain ⟨u, hu⟩ := h
  exact ⟨u, hu.symm⟩

theorem hostTail_iff (s : List Char) :
    hostTail s = true ↔
    ∃ d rest, s = d ++ ('/' :: rest)
      ∧ (d = "youtube.com".toList ∨ d = "youtu.be".toList)
      ∧ dotPlusDollar rest = true := by
  unfold hostTail
  by_cases h1 : ("youtube.com/".toList).isPrefixOf s = true
  · rw [if_pos h1]
    obtain ⟨u, rfl⟩ := prefix_decomp h1
    constructor
    · intro hd
      exact ⟨"youtube.com".toList, u, rfl, Or.inl rfl, hd⟩
    · rintro ⟨d, rest, heq, hdo, hrest⟩
      rcases hdo with rfl | rfl
      · have hur : u = rest :=
          List.append_cancel_left
            (show "youtube.com/".toList ++ u = "youtube.com/".toList ++ rest from heq)
        show dotPlusDollar u = true
        rw [hur]
        exact hrest
      · exfalso
        simp at heq
  · rw [if_neg h1]
    by_cases h2 : ("youtu.be/".toList).isPrefixOf s = true
    · rw [if_pos h2]
      obtain ⟨u, rfl⟩ := prefix_decomp h2
      constructor
      · intro hd
        exact ⟨"youtu.be".toList, u, rfl, Or.inr rfl, hd⟩
      · rintro ⟨d, rest, heq, hdo, hrest⟩
        rcases hdo with rfl | rfl
        · exfalso
          simp at heq
        · have hur : u = rest :=
            List.append_cancel_left
              (show "youtu.be/".toList ++ u = "youtu.be/".toList ++ rest from heq)
          show dotPlusDollar u = true
          rw [hur]
          exact hrest
    · rw [if_neg h2]
      constructor
      · intro h
        exact absurd h (by simp)
      · rintro ⟨d, rest, heq, hdo, hrest⟩
        exfalso
        rcases hdo with rfl | rfl
        · apply h1
          rw [heq]
          show ("youtube.com/".toList).isPrefixOf ("youtube.com/".toList ++ rest) = true
          simp
        · apply h2
          rw [heq]
          show ("youtu.be/".toList).isPrefixOf ("youtu.be/".toList ++ rest) = true
          simp

theorem afterScheme_iff (s : List Char) :
    afterScheme s = true ↔
    ∃ w u, s = w ++ u ∧ (w = [] ∨ w = "www.".toList) ∧ hostTail u = true := by
  unfold afterScheme
  by_cases h1 : ("www.".toList).isPrefixOf s = true
  · rw [if_pos h1]
    obtain ⟨u, rfl⟩ := prefix_decomp h1
    constructor
    · intro h
      exact ⟨"www.".toList, u, rfl, Or.inr rfl, h⟩
    · rintro ⟨w, u', heq, hwo, hu⟩
      rcases hwo with rfl | rfl
      · exfalso
        rw [List.nil_append] at heq
        rw [← heq] at hu
        unfold hostTail at hu
        rw [show ("youtube.com/".toList).isPrefixOf ("www.".toList ++ u) = false from rfl,
          show ("youtu.be/".toList).isPrefixOf ("www.".toList ++ u) = false from rfl] at hu
        simp at hu
      · have hur : u = u' := List.append_cancel_left heq
        show hostTail u = true
        rw [hur]
        exact hu
  · rw [if_neg h1]
    constructor
    · intro h
      exact ⟨[], s, (List.nil_append s).symm, Or.inl rfl, h⟩
    · rintro ⟨w, u, heq, hwo, hu⟩
      rcases hwo with rfl | rfl
      · rw [List.nil_append] at heq
        rw [heq]
        exact hu
      · exfalso
        apply h1
        rw [heq]
        simp

theorem matchYoutube_iff (s : List Char) :
    matchYoutubeChars s = true ↔
    ∃ p u, s = p ++ u
      ∧ (p = [] ∨ p = "http://".toList ∨ p = "https://".toList)
      ∧ afterScheme u = true := by
  unfold matchYoutubeChars
  by_cases h1 : ("https://".toList).isPrefixOf s = true
  · rw [if_pos h1]
    obtain ⟨u, rfl⟩ := prefix_decomp h1
    constructor
    · intro h
      exact ⟨"https://".toList, u, rfl, Or.inr (Or.inr rfl), h⟩
    · rintro ⟨p, u', heq, hpo, hu⟩
      rcases hpo with rfl | rfl | rfl
      · exfalso
        rw [List.nil_append] at heq
        rw [← heq] at hu
        unfold afterScheme at hu
        rw [show ("www.".toList).isPrefixOf ("https://".toList ++ u) = false from rfl] at hu
        simp only [Bool.false_eq_true, if_false] at hu
        unfold hostTail at hu
        rw [show ("youtube.com/".toList).isPrefixOf ("https://".toList ++ u) = false from rfl,
          show ("youtu.be/".toList).isPrefixOf ("https://".toList ++ u) = false from rfl] at hu
        simp at hu
      · exfalso
        simp at heq
      · have hur : u = u' := List.append_cancel_left heq
        show afterScheme u = true
        rw [hur]
        exact hu
  · rw [if_neg h1]
    by_cases h2 : ("http://".toList).isPrefixOf s = true
    · rw [if_pos h2]
      obtain ⟨u, rfl⟩ := prefix_decomp h2
      constructor
      · intro h
        exact ⟨"http://".toList, u, rfl, Or.inr (Or.inl rfl), h⟩
      · rintro ⟨p, u', heq, hpo, hu⟩
        rcases hpo with rfl | rfl | rfl
        · exfalso
          rw [List.nil_append] at heq
          rw [← heq] at hu
          unfold afterScheme at hu
          rw [show ("www.".toList).isPrefixOf ("http://".toList ++ u) = false from rfl] at hu
          simp only [Bool.false_eq_true, if_false] at hu
          unfold hostTail at hu
          rw [show ("youtube.com/".toList).isPrefixOf ("http://".toList ++ u) = false from rfl,
            show ("youtu.be/".toList).isPrefixOf ("http://".toList ++ u) = false from rfl] at hu
          simp at hu
        · have hur : u = u' := List.append_cancel_left heq
          show afterScheme u = true
          rw [hur]
          exact hu
        · exfalso
          simp at heq
    · rw [if_neg h2]
      constructor
      · intro h
        exact ⟨[], s, (List.nil_append s).symm, Or.inl rfl, h⟩
      · rintro ⟨p, u, heq, hpo, hu⟩
        rcases hpo with rfl | rfl | rfl
        · rw [List.nil_append] at heq
          rw [heq]
          exact hu
        · exfalso
          apply h2
          rw [heq]
          simp
        · exfalso
          apply h1
          rw [heq]
          simp

/-- C4: for every string `s`, `validate_youtube_url s` is true iff `s`
matches `^(https?://)?(www\.)?(youtube\.com|youtu\.be)/.+$` (scheme and
`www.` optional, case-sensitive literal domains, anchored at both ends with
Python `re` end-of-string semantics), and it is false on the empty string;
being a total Lean function, it raises no exception. -/
theorem claim_C4 (s : String) :
    (validate_youtube_url s = true ↔ YoutubeRegexSpec s.data)
    ∧ validate_youtube_url "" = false := by
  refine ⟨?_, rfl⟩
  obtain ⟨l⟩ := s
  show matchYoutubeChars l = true ↔ YoutubeRegexSpec l
  rw [matchYoutube_iff]
  unfold YoutubeRegexSpec
  constructor
  · rintro ⟨p, u, rfl, hpo, hu⟩
    obtain ⟨w, v, rfl, hwo, hv⟩ := (afterScheme_iff u).mp hu
    obtain ⟨d, rest, rfl, hdo, hrest⟩ := (hostTail_iff v).mp hv
    obtain ⟨r, t, rfl, hrne, hnr, hto⟩ := (dotPlusDollar_iff rest).mp hrest
    exact ⟨p, w, d, r, t, rfl, hpo, hwo, hdo, hrne, hnr, hto⟩
  · rintro ⟨p, w, d, r, t, rfl, hpo, hwo, hdo, hrne, hnr, hto⟩
    exact ⟨p, w ++ (d ++ ('/' :: (r ++ t))), rfl, hpo,
      (afterScheme_iff _).mpr ⟨w, d ++ ('/' :: (r ++ t)), rfl, hwo,
        (hostTail_iff _).mpr ⟨d, r ++ t, rfl, hdo,
          (dotPlusDollar_iff _).mpr ⟨r, t, rfl, hrne, hnr, hto⟩⟩⟩⟩
